import Mathlib

/-!
Verification of the Knowledge Synchronization and Retrieval Engine
(ultra-planning scripts: auto-embedder, cache_manager, error-monitor,
vector-search, reranker, file-watcher).

The Python scripts are shallowly embedded: file contents are `String`,
JSON objects with string keys are association lists (`Store`), numeric
vectors are `List ℚ`, and the external services (SHA-256, MD5, the
embedding model, the cross-encoder, the square root used inside the
euclidean norm) are function parameters, since they live outside the
repository.  Fallible effects (a missing file, a corrupt cache file)
are explicit sum types.
-/

/-- Association-list store modelling a JSON object / Python dict with
string keys (insertion ordered, last write wins per key). -/
abbrev Store (α : Type) := List (String × α)

/-- Dict lookup. -/
def Store.get {α : Type} (k : String) : Store α → Option α
  | [] => none
  | (k', v) :: rest => if k' = k then some v else Store.get k rest

/-- Dict assignment (`d[k] = v`): overwrite the first binding of `k`,
or append a new binding. -/
def Store.set {α : Type} (k : String) (v : α) : Store α → Store α
  | [] => [(k, v)]
  | (k', v') :: rest =>
      if k' = k then (k, v) :: rest else (k', v') :: Store.set k v rest

theorem Store.get_set_self {α : Type} (k : String) (v : α) (s : Store α) :
    Store.get k (Store.set k v s) = some v := by
  induction s with
  | nil => simp [Store.set, Store.get]
  | cons hd tl ih =>
      obtain ⟨k', v'⟩ := hd
      by_cases h : k' = k
      · simp [Store.set, Store.get, h]
      · simp [Store.set, Store.get, h, ih]

theorem Store.get_set_ne {α : Type} (k k' : String) (v : α) (s : Store α)
    (h : k' ≠ k) : Store.get k' (Store.set k v s) = Store.get k' s := by
  have hne : k ≠ k' := Ne.symm h
  induction s with
  | nil => simp [Store.set, Store.get, hne]
  | cons hd tl ih =>
      obtain ⟨k0, v0⟩ := hd
      by_cases h0 : k0 = k
      · subst h0
        simp [Store.set, Store.get, hne]
      · by_cases h1 : k0 = k'
        · simp [Store.set, Store.get, h0, h1, h]
        · simp [Store.set, Store.get, h0, h1, ih]

/-- Does `pat` occur at the head of the list (Python `startswith`)? -/
def startsWithCh : List Char → List Char → Bool
  | [], _ => true
  | _ :: _, [] => false
  | p :: ps, c :: cs => p == c && startsWithCh ps cs

/-- Does `pat` occur contiguously anywhere in the list? -/
def hasSubChain (pat : List Char) : List Char → Bool
  | [] => startsWithCh pat []
  | c :: cs => startsWithCh pat (c :: cs) || hasSubChain pat cs

/-- Python substring test `needle in hay`. -/
def containsSub (needle hay : String) : Bool :=
  hasSubChain needle.data hay.data

theorem startsWithCh_self_append (p r : List Char) :
    startsWithCh p (p ++ r) = true := by
  induction p with
  | nil => simp [startsWithCh]
  | cons c cs ih => simp [startsWithCh, ih]

theorem hasSubChain_of_startsWithCh (p l : List Char)
    (h : startsWithCh p l = true) : hasSubChain p l = true := by
  cases l with
  | nil => simpa [hasSubChain] using h
  | cons c cs => simp [hasSubChain, h]

theorem hasSubChain_cons (p : List Char) (c : Char) (cs : List Char)
    (h : hasSubChain p cs = true) : hasSubChain p (c :: cs) = true := by
  simp [hasSubChain, h]

theorem hasSubChain_append_left (p a l : List Char)
    (h : hasSubChain p l = true) : hasSubChain p (a ++ l) = true := by
  induction a with
  | nil => simpa using h
  | cons c cs ih => exact hasSubChain_cons p c (cs ++ l) ih

theorem hasSubChain_mid (p x y : List Char) :
    hasSubChain p (x ++ (p ++ y)) = true :=
  hasSubChain_append_left p x (p ++ y)
    (hasSubChain_of_startsWithCh p (p ++ y) (startsWithCh_self_append p y))

theorem stringData_append (a b : String) : (a ++ b).data = a.data ++ b.data :=
  rfl

/-- Split on every non-overlapping occurrence of `sep`, scanning left to
right (Python `str.split(sep)` / `re.split` on a literal pattern).
Structural fuel recursion so that the kernel can evaluate it; every step
consumes at least one character when `sep` is nonempty, so fuel equal to
the input length suffices. -/
def splitOnAuxCh (sep : List Char) : Nat → List Char → List Char → List (List Char)
  | 0, acc, l => [acc.reverse ++ l]
  | _ + 1, acc, [] => [acc.reverse]
  | fuel + 1, acc, c :: cs =>
      if startsWithCh sep (c :: cs) then
        acc.reverse :: splitOnAuxCh sep fuel [] ((c :: cs).drop sep.length)
      else
        splitOnAuxCh sep fuel (c :: acc) cs

def splitOnStr (sep s : String) : List String :=
  (splitOnAuxCh sep.data (s.data.length + 1) [] s.data).map (fun l => ⟨l⟩)

/-- Python `str.strip()`. -/
def pyStrip (s : String) : String :=
  ⟨((s.data.dropWhile Char.isWhitespace).reverse.dropWhile Char.isWhitespace).reverse⟩

/-- Python `str.lower()` (ASCII). -/
def toLowerStr (s : String) : String :=
  ⟨s.data.map Char.toLower⟩

/-- Stable descending insertion (Python `list.sort(key=f, reverse=True)`
places a new element after every already-placed element whose key is not
strictly smaller). -/
def insertDescBy {α : Type} (f : α → ℚ) (x : α) : List α → List α
  | [] => [x]
  | y :: ys => if f y < f x then x :: y :: ys else y :: insertDescBy f x ys

/-- Stable descending sort by key `f`, processing elements left to right. -/
def sortDescBy {α : Type} (f : α → ℚ) (l : List α) : List α :=
  l.foldl (fun acc x => insertDescBy f x acc) []

theorem insertDescBy_perm {α : Type} (f : α → ℚ) (x : α) (l : List α) :
    List.Perm (insertDescBy f x l) (x :: l) := by
  induction l with
  | nil => simp [insertDescBy]
  | cons y ys ih =>
      by_cases h : f y < f x
      · simp [insertDescBy, h]
      · simp only [insertDescBy, if_neg h]
        exact ((ih.cons y).trans (List.Perm.swap x y ys))

theorem insertDescBy_pairwise {α : Type} (f : α → ℚ) (x : α) (l : List α)
    (h : l.Pairwise (fun a b => f b ≤ f a)) :
    (insertDescBy f x l).Pairwise (fun a b => f b ≤ f a) := by
  induction l with
  | nil => simp [insertDescBy]
  | cons y ys ih =>
      rcases List.pairwise_cons.mp h with ⟨hy, hys⟩
      simp only [insertDescBy]
      by_cases hlt : f y < f x
      · rw [if_pos hlt]
        refine List.pairwise_cons.mpr ⟨?_, h⟩
        intro z hz
        rcases List.mem_cons.mp hz with hz | hz
        · exact hz ▸ le_of_lt hlt
        · exact le_trans (hy z hz) (le_of_lt hlt)
      · rw [if_neg hlt]
        refine List.pairwise_cons.mpr ⟨?_, ih hys⟩
        intro z hz
        have hz' := (insertDescBy_perm f x ys).mem_iff.mp hz
        rcases List.mem_cons.mp hz' with hz' | hz'
        · exact hz' ▸ le_of_not_lt hlt
        · exact hy z hz'

theorem foldl_insertDescBy_perm {α : Type} (f : α → ℚ) (l acc : List α) :
    List.Perm (l.foldl (fun a x => insertDescBy f x a) acc) (acc ++ l) := by
  induction l generalizing acc with
  | nil => simp
  | cons x xs ih =>
      have h1 : (x :: xs).foldl (fun a y => insertDescBy f y a) acc
          = xs.foldl (fun a y => insertDescBy f y a) (insertDescBy f x acc) := rfl
      have h2 := ih (insertDescBy f x acc)
      have h3 : List.Perm (insertDescBy f x acc ++ xs) ((x :: acc) ++ xs) :=
        (insertDescBy_perm f x acc).append_right xs
      have h4 : List.Perm ((x :: acc) ++ xs) (acc ++ x :: xs) := List.perm_middle.symm
      rw [h1]
      exact (h2.trans h3).trans h4

theorem sortDescBy_perm {α : Type} (f : α → ℚ) (l : List α) :
    List.Perm (sortDescBy f l) l := by
  simpa using foldl_insertDescBy_perm f l []

theorem foldl_insertDescBy_pairwise {α : Type} (f : α → ℚ) (l acc : List α)
    (hacc : acc.Pairwise (fun a b => f b ≤ f a)) :
    (l.foldl (fun a x => insertDescBy f x a) acc).Pairwise
      (fun a b => f b ≤ f a) := by
  induction l generalizing acc with
  | nil => simpa using hacc
  | cons x xs ih => exact ih (insertDescBy f x acc) (insertDescBy_pairwise f x acc hacc)

theorem sortDescBy_pairwise {α : Type} (f : α → ℚ) (l : List α) :
    (sortDescBy f l).Pairwise (fun a b => f b ≤ f a) :=
  foldl_insertDescBy_pairwise f l [] (by simp)

theorem mem_sortDescBy {α : Type} (f : α → ℚ) (l : List α) (x : α) :
    x ∈ sortDescBy f l ↔ x ∈ l :=
  (sortDescBy_perm f l).mem_iff

/-!
Regex substitution engine for the fixed patterns used by
`error-monitor.py`.  Each `re.sub(pattern, repl, s)` call scans left to
right; at a match it emits the replacement and resumes after the match,
otherwise it moves one character forward.  A matcher returns the
replacement together with the input remaining after the match; every
matcher consumes at least one character, so fuel equal to the input
length is always enough.
-/

/-- A matcher tries a pattern at the head of the input; on success it
returns the replacement text and the rest of the input after the match. -/
abbrev Matcher := List Char → Option (List Char × List Char)

def gsubAux (m : Matcher) : Nat → List Char → List Char
  | 0, l => l
  | _ + 1, [] => []
  | fuel + 1, c :: cs =>
      match m (c :: cs) with
      | some (r, rest) => r ++ gsubAux m fuel rest
      | none => c :: gsubAux m fuel cs

/-- Global substitution (Python `re.sub`) for one of the fixed patterns. -/
def gsub (m : Matcher) (s : String) : String :=
  ⟨gsubAux m s.data.length s.data⟩

/-- Index of the last occurrence of `c`. -/
def lastIdxOf (c : Char) : List Char → Option Nat
  | [] => none
  | x :: xs =>
      match lastIdxOf c xs with
      | some j => some (j + 1)
      | none => if x == c then some 0 else none

/-- Character class `[^\s:]` (anything but whitespace and a colon). -/
def isPathChar (c : Char) : Bool := !c.isWhitespace && c != ':'

/-- Pattern `\d{4}-\d{2}-\d{2}` (calendar date). -/
def matchDate : Matcher
  | a :: b :: c :: d :: e :: f :: g :: h :: i :: j :: rest =>
      if a.isDigit && b.isDigit && c.isDigit && d.isDigit && e == '-'
          && f.isDigit && g.isDigit && h == '-' && i.isDigit && j.isDigit
      then some ("DATE".data, rest) else none
  | _ => none

/-- Pattern `\d{2}:\d{2}:\d{2}` (clock time). -/
def matchTime : Matcher
  | a :: b :: c :: d :: e :: f :: g :: h :: rest =>
      if a.isDigit && b.isDigit && c == ':' && d.isDigit && e.isDigit
          && f == ':' && g.isDigit && h.isDigit
      then some ("TIME".data, rest) else none
  | _ => none

/-- Pattern `\d+ms` (millisecond duration); `\d+` is greedy, so the
digit run before `ms` is maximal. -/
def matchNumMs : Matcher := fun l =>
  let ds := l.takeWhile Char.isDigit
  if ds.isEmpty then none
  else
    match l.dropWhile Char.isDigit with
    | 'm' :: 's' :: rest => some ("NUMms".data, rest)
    | _ => none

/-- Pattern `/[^\s:]+/` with replacement `repl`.  The greedy inner class
backtracks to the last `/` inside the maximal class run after the opening
slash (with at least one class character before it). -/
def matchSlashPath (repl : List Char) : Matcher
  | '/' :: rest =>
      let run := rest.takeWhile isPathChar
      (match lastIdxOf '/' run with
       | some j => if 1 ≤ j then some (repl, rest.drop (j + 1)) else none
       | none => none)
  | _ => none

/-- Pattern `[A-Z]:[^\s:]+` (Windows path); the class run is greedy. -/
def matchWinPath : Matcher
  | a :: ':' :: rest =>
      if 'A' ≤ a && a ≤ 'Z' then
        (if (rest.takeWhile isPathChar).isEmpty then none
         else some ("PATH".data, rest.dropWhile isPathChar))
      else none
  | _ => none

/-- Pattern `:\d+:` (line-number between colons); digits greedy. -/
def matchColonLineColon : Matcher
  | ':' :: rest =>
      if (rest.takeWhile Char.isDigit).isEmpty then none
      else
        (match rest.dropWhile Char.isDigit with
         | ':' :: r2 => some (":LINE:".data, r2)
         | _ => none)
  | _ => none

/-- Pattern `line \d+`; digits greedy. -/
def matchLineNum : Matcher
  | 'l' :: 'i' :: 'n' :: 'e' :: ' ' :: rest =>
      if (rest.takeWhile Char.isDigit).isEmpty then none
      else some ("line NUM".data, rest.dropWhile Char.isDigit)
  | _ => none

/-- Character class `[0-9a-fA-F]`. -/
def isHexChar (c : Char) : Bool :=
  c.isDigit || ('a' ≤ c && c ≤ 'f') || ('A' ≤ c && c ≤ 'F')

/-- Pattern `0x[0-9a-fA-F]+` (memory address); hex digits greedy. -/
def matchHexAddr : Matcher
  | '0' :: 'x' :: rest =>
      if (rest.takeWhile isHexChar).isEmpty then none
      else some ("0xADDR".data, rest.dropWhile isHexChar)
  | _ => none

/-- Pattern `:\d+` (colon plus line number, used on stack lines). -/
def matchColonNum : Matcher
  | ':' :: rest =>
      if (rest.takeWhile Char.isDigit).isEmpty then none
      else some ([], rest.dropWhile Char.isDigit)
  | _ => none

/-- Symptom normalization of `generate_error_fingerprint`: lower-case,
then the eight `re.sub` passes in source order. -/
def normalizeSymptom (symptom : String) : String :=
  let n0 := toLowerStr symptom
  let n1 := gsub matchDate n0
  let n2 := gsub matchTime n1
  let n3 := gsub matchNumMs n2
  let n4 := gsub (matchSlashPath "/PATH/".data) n3
  let n5 := gsub matchWinPath n4
  let n6 := gsub matchColonLineColon n5
  let n7 := gsub matchLineNum n6
  gsub matchHexAddr n7

/-- Normalization of one stack line: strip directory components
(`/[^\s:]+/` -> empty) and `:\d+` line numbers, then `strip()`. -/
def stackLineNorm (line : String) : String :=
  pyStrip (gsub matchColonNum (gsub (matchSlashPath []) line))

/-- Stack signature: first three lines of the stack trace, each
normalized, concatenated (empty when the stack trace is empty). -/
def stackSig (stackTrace : String) : String :=
  if stackTrace = "" then ""
  else String.join (((splitOnStr "\n" stackTrace).take 3).map stackLineNorm)

/-- `generate_error_fingerprint`: the 12-character key is the truncated
hex digest (`md5f` models `hashlib.md5(...).hexdigest()`) of the
normalized symptom concatenated with the stack signature. -/
def generateErrorFingerprint (md5f : String → String)
    (symptom stackTrace : String) : String :=
  ⟨(md5f (normalizeSymptom symptom ++ stackSig stackTrace)).data.take 12⟩

/-- A captured error as assembled by `process_error_from_buffer`. -/
structure ErrorData where
  symptom : String
  timestamp : String
  command : Option String
  stackTrace : String
deriving DecidableEq

/-- Python `str.rstrip()`. -/
def rstrip (s : String) : String :=
  ⟨(s.data.reverse.dropWhile Char.isWhitespace).reverse⟩

/-- `format_error_for_failures_md` (the f-string template). -/
def formatErrorForFailuresMd (e : ErrorData) : String :=
  "\n## Error: [Auto-Detected] " ++ e.symptom ++
  "\n**Auto-Captured:** " ++ e.timestamp ++
  "\n**Symptom:** " ++ e.symptom ++ "\n" ++
  (match e.command with
   | some cmd => if cmd ≠ "" then "**Command:** `" ++ cmd ++ "`" else ""
   | none => "") ++
  "\n**Stack Trace:**\n```\n" ++ e.stackTrace ++
  "\n```\n**Status:** ⚠️ Needs solution (add solution once fixed)\n**Solution:** (fill this in when you resolve the error)\n\n---\n"

/-- The literal dedup tag `[fp:...]` embedded in the failures document. -/
def fingerprintTag (fp : String) : String := "[fp:" ++ fp ++ "]"

/-- The text appended for one captured error: the formatted entry,
right-stripped, plus the fingerprint metadata line. -/
def entryTextFor (e : ErrorData) (fp : String) : String :=
  rstrip (formatErrorForFailuresMd e) ++
    ("\n**Fingerprint:** `" ++ (fingerprintTag fp ++ "`\n\n---\n"))

/-- `add_to_failures_md`: compute the fingerprint; if the failures file
exists and already contains the tag anywhere, skip; otherwise append
(appending to a missing file creates it). -/
def addToFailuresMd (md5f : String → String) (failures : Option String)
    (e : ErrorData) : Option String :=
  let fp := generateErrorFingerprint md5f e.symptom e.stackTrace
  match failures with
  | some content =>
      if containsSub (fingerprintTag fp) content then some content
      else some (content ++ entryTextFor e fp)
  | none => some (entryTextFor e fp)

/-!
Record parser (`parse_sections` in auto-embedder.py and
`parse_sections_cached` / `get_section_prefix` in cache_manager.py) and
the content-addressed embedding pipeline of auto-embedder.py.
-/

/-- Python `pathlib.Path(name).suffix`: the final extension including
the dot, empty for names without a dot past the first character. -/
def suffixOf (name : String) : String :=
  match lastIdxOf '.' name.data with
  | none => ""
  | some 0 => ""
  | some j => ⟨name.data.drop j⟩

/-- Python `pathlib.Path(name).stem`: the name without its suffix. -/
def stemOf (name : String) : String :=
  ⟨name.data.take (name.data.length - (suffixOf name).data.length)⟩

/-- One parsed record (section) of a knowledge document. -/
structure SectionRec where
  id : String
  file : String
  content : String
  preview : String
deriving DecidableEq

/-- Section header marker chosen from the file name
(auto-embedder.py `parse_sections`). -/
def sectionMarkOf (name : String) : String :=
  if containsSub "patterns" name then "## Pattern:"
  else if containsSub "failures" name then "## Error:"
  else if containsSub "decisions" name then "## Decision:"
  else if containsSub "gotchas" name then "## Gotcha:"
  else "## "

/-- Build the section records from the splits after the first, with
1-based ordinals. -/
def mkSectionRecs (mark stem fname : String) : Nat → List String → List SectionRec
  | _, [] => []
  | i, s :: rest =>
      { id := stem ++ "_section_" ++ toString i
        file := fname
        content := mark ++ pyStrip s
        preview := pyStrip ⟨s.data.take 100⟩ } :: mkSectionRecs mark stem fname (i + 1) rest

/-- `parse_sections` of auto-embedder.py on a document with name `name`
and text `content`: split on the newline-plus-marker pattern (a literal
regex) and keep everything after the first split. -/
def parseSections (name content : String) : List SectionRec :=
  let mark := sectionMarkOf name
  mkSectionRecs mark (stemOf name) name 1 ((splitOnStr ("\n" ++ mark) content).drop 1)

/-- The `SECTION_PREFIXES` mapping of cache_manager.py in insertion
order. -/
def sectionMarksList : List (String × String) :=
  [("patterns", "## Pattern:"), ("failures", "## Error:"),
   ("decisions", "## Decision:"), ("gotchas", "## Gotcha:")]

def getSectionMarkAux : List (String × String) → String → String
  | [], _ => "## "
  | (key, mark) :: rest, fname =>
      if containsSub key fname then mark else getSectionMarkAux rest fname

/-- `get_section_prefix` of cache_manager.py. -/
def getSectionMark (fname : String) : String :=
  getSectionMarkAux sectionMarksList fname

/-- Core of `parse_sections_cached` of cache_manager.py for an existing
file with text `content` (the lru-cache key and the filesystem read are
modelled away; the function is keyed on path and content hash exactly so
that it is a pure function of name and text). -/
def parseSectionsCachedCore (name content : String) : List SectionRec :=
  let mark := getSectionMark name
  mkSectionRecs mark (stemOf name) name 1 ((splitOnStr ("\n" ++ mark) content).drop 1)

/-- The embedding model name constant `MODEL_NAME`. -/
def modelNameStr : String := "BAAI/bge-large-en-v1.5"

/-- The per-document index artifact written by `save_embeddings`: the
`.npy` vectors plus the `.json` metadata (the wall-clock `generated`
timestamp is not modelled; no claim concerns it). -/
structure IndexData where
  sourceFile : String
  modelName : String
  sections : List SectionRec
  embeddings : List (List ℚ)
  embeddingCount : Nat
deriving DecidableEq

def mkIndexData (f : String) (secs : List SectionRec)
    (embs : List (List ℚ)) : IndexData :=
  { sourceFile := f, modelName := modelNameStr, sections := secs,
    embeddings := embs, embeddingCount := embs.length }

/-- The persisted hash-cache file `.hash_cache.json`: missing, present
but unparsable, or a valid mapping from file key to digest. -/
inductive CacheFile where
  | missing
  | corrupt
  | valid (entries : Store String)
deriving DecidableEq

/-- `load_hash_cache`: `{}` when the file is missing, `{}` when any
exception occurs while reading or parsing it. -/
def loadHashCache : CacheFile → Store String
  | .missing => []
  | .corrupt => []
  | .valid es => es

/-- `hash_file`: the empty string for a missing file, otherwise the
digest of the contents (`sha` models `hashlib.sha256(...).hexdigest()`). -/
def hashFile (sha : String → String) (fs : String → Option String)
    (f : String) : String :=
  match fs f with
  | none => ""
  | some c => sha c

/-- `check_and_embed_file`: compare the current digest against the
cached one; on divergence parse, embed (`encode` models
`model.encode`), write the index file keyed by the document stem, and
record the new digest in the in-memory cache.  Returns the updated
vectors directory, the updated in-memory cache, and the `updated` flag. -/
def checkAndEmbedFile (sha : String → String)
    (encode : List String → List (List ℚ)) (fs : String → Option String)
    (f : String) (vectors : Store IndexData) (cache : Store String)
    (force : Bool) : Store IndexData × Store String × Bool :=
  let currentHash := hashFile sha fs f
  if currentHash = "" then (vectors, cache, false)
  else
    let cachedHash := (Store.get f cache).getD ""
    if currentHash = cachedHash ∧ force = false then (vectors, cache, false)
    else
      let content := (fs f).getD ""
      let sections := parseSections f content
      if sections = [] then (vectors, cache, false)
      else
        let embeddings := encode (sections.map SectionRec.content)
        (Store.set (stemOf f) (mkIndexData f sections embeddings) vectors,
         Store.set f currentHash cache, true)

/-- Result of one document sync. -/
structure SyncResult where
  vectors : Store IndexData
  persisted : CacheFile
  updated : Bool
deriving DecidableEq

/-- The per-document sync path of auto-embedder.py: `load_hash_cache`,
then `check_and_embed_file`, then `save_hash_cache`. -/
def syncDoc (sha : String → String) (encode : List String → List (List ℚ))
    (fs : String → Option String) (f : String) (vectors : Store IndexData)
    (persisted : CacheFile) : SyncResult :=
  let cache := loadHashCache persisted
  let r := checkAndEmbedFile sha encode fs f vectors cache false
  { vectors := r.1, persisted := .valid r.2.1, updated := r.2.2 }

/-- Externally visible effects of a run, in order: index-file writes
(`np.save` plus the metadata json in `save_embeddings`), then the single
`save_hash_cache` write at the end of `auto_embed_all`. -/
inductive TraceEv where
  | writeIndex (stem : String)
  | persistCache (entries : Store String)
deriving DecidableEq

/-- In-flight state of `auto_embed_all` while looping over the files. -/
structure EmbedRun where
  vectors : Store IndexData
  cache : Store String
  writeEvents : List TraceEv
  updatedFiles : List String

/-- One iteration of the `auto_embed_all` loop (files that do not exist
are skipped before calling `check_and_embed_file`; an index write event
is emitted exactly when the file was re-embedded). -/
def autoEmbedStep (sha : String → String)
    (encode : List String → List (List ℚ)) (fs : String → Option String)
    (st : EmbedRun) (f : String) : EmbedRun :=
  if (fs f).isSome then
    let r := checkAndEmbedFile sha encode fs f st.vectors st.cache false
    { vectors := r.1, cache := r.2.1,
      writeEvents := st.writeEvents ++ (if r.2.2 then [TraceEv.writeIndex (stemOf f)] else []),
      updatedFiles := st.updatedFiles ++ (if r.2.2 then [f] else []) }
  else st

/-- The fixed knowledge files of `auto_embed_all`. -/
def knowledgeFiles : List String :=
  ["patterns.md", "failures.md", "decisions.md", "gotchas.md"]

/-- The observable outcome of `auto_embed_all`. -/
structure EmbedOutcome where
  vectors : Store IndexData
  persisted : CacheFile
  trace : List TraceEv
  updatedFiles : List String

/-- `auto_embed_all` (force=false): load the hash cache, check and embed
each knowledge file in order, then persist the updated cache once at the
end.  The trace records the ordered externally visible writes. -/
def autoEmbedAll (sha : String → String)
    (encode : List String → List (List ℚ)) (fs : String → Option String)
    (v0 : Store IndexData) (p0 : CacheFile) : EmbedOutcome :=
  let st0 : EmbedRun :=
    { vectors := v0, cache := loadHashCache p0, writeEvents := [], updatedFiles := [] }
  let stF := knowledgeFiles.foldl (autoEmbedStep sha encode fs) st0
  { vectors := stF.vectors, persisted := .valid stF.cache,
    trace := stF.writeEvents ++ [TraceEv.persistCache stF.cache],
    updatedFiles := stF.updatedFiles }

/-!
Retrieval pipeline: Stage 1 vector scan of `search_semantic`
(vector-search.py) and Stage 2 `rerank_results` (reranker.py).
Similarities use `np.dot(a, b) / (np.linalg.norm(a) * np.linalg.norm(b))`;
`np.linalg.norm` is the square root of the sum of squares, modelled as a
parameter `sq` applied to the rational sum of squares.  When the
denominator is zero the float quotient is NaN (the numerator is
necessarily zero too), and `NaN >= threshold` is false, so such an entry
never enters the result list; this is modelled by the `none` branch.
-/

/-- Dot product (`np.dot` on equal-length vectors). -/
def dotQ : List ℚ → List ℚ → ℚ
  | a :: as, b :: bs => a * b + dotQ as bs
  | _, _ => 0

/-- Sum of squares; `np.linalg.norm v = sq (normSq v)`. -/
def normSq (v : List ℚ) : ℚ := dotQ v v

/-- One section entry of a persisted vectors json file. -/
structure SEntry where
  etype : String
  header : String
  content : String
  embedding : List ℚ
deriving DecidableEq

/-- A candidate dict flowing between the two stages. -/
structure Cand where
  ctype : String
  header : String
  content : String
  similarity : ℚ
  score : ℚ
  vectorScore : Option ℚ
  rerankScore : Option ℚ
deriving DecidableEq

/-- Stage 1 of `search_semantic`: scan every section of every vectors
file, compute the cosine similarity, keep entries scoring at or above
the threshold, and sort by similarity descending (stable). -/
def stage1 (sq : ℚ → ℚ) (qv : List ℚ) (threshold : ℚ)
    (entries : List SEntry) : List Cand :=
  sortDescBy Cand.similarity (entries.filterMap (fun e =>
    let den := sq (normSq qv) * sq (normSq e.embedding)
    if den = 0 then none
    else
      let s := dotQ qv e.embedding / den
      if threshold ≤ s then
        some { ctype := e.etype, header := e.header, content := e.content,
               similarity := s, score := s, vectorScore := none,
               rerankScore := none }
      else none))

/-- Does the Stage-1 scan evaluate the similarity quotient with a zero
denominator for some entry?  The source computes
`np.dot(...) / (np.linalg.norm(...) * np.linalg.norm(...))` for every
scanned section with no guard, so this flags a float division by zero
(producing NaN) during the scan. -/
def stage1DividesByZero (sq : ℚ → ℚ) (qv : List ℚ)
    (entries : List SEntry) : Bool :=
  entries.any (fun e => decide (sq (normSq qv) * sq (normSq e.embedding) = 0))

/-- Outcome of the cross-encoder machinery inside reranker.py:
`unavailable` models `RERANKER_AVAILABLE = False` (sentence-transformers
missing), `loadFail` a raised exception in `load_reranker_model`,
`scoreFail` a raised exception in `model.predict`, and `ok` a successful
scoring run. -/
inductive RerankStatus where
  | unavailable
  | loadFail
  | scoreFail
  | ok
deriving DecidableEq

/-- Default `semantic_search.final_top_k` (config_loader default). -/
def finalTopKDefault : Nat := 10

/-- `rerank_results` of reranker.py.  `crossScore` models
`model.predict` applied to one `[query, text]` pair; the scored text is
the content field of the candidate (the source falls back from the
content key to the text key, and the latter is always absent on these
candidates). -/
def rerankResults (crossScore : String → String → ℚ) (st : RerankStatus)
    (query : String) (cands : List Cand) (topK : Option Nat) : List Cand :=
  match st with
  | .unavailable =>
      (match topK with
       | some k => if k ≠ 0 then cands.take k else cands
       | none => cands)
  | _ =>
      if cands = [] then []
      else
        let k := topK.getD finalTopKDefault
        match st with
        | .loadFail => cands.take k
        | .scoreFail => cands.take k
        | _ =>
            let reranked := cands.map (fun c =>
              { c with rerankScore := some (crossScore query c.content),
                       vectorScore := some c.score,
                       score := crossScore query c.content })
            (sortDescBy (fun c => c.rerankScore.getD 0) reranked).take k

/-- `search_semantic` of vector-search.py.  `importOk` models the
module-level `RERANKER_AVAILABLE` of vector-search.py (did
`import reranker` succeed); `st` the fate of the cross-encoder inside
reranker.py; `rerankTopK` and `topK` the configured
`semantic_search.reranker_top_k` (default 50) and requested result
count. -/
def searchSemantic (sq : ℚ → ℚ) (crossScore : String → String → ℚ)
    (importOk : Bool) (st : RerankStatus) (query : String) (qv : List ℚ)
    (threshold : ℚ) (useRerank : Bool) (topK : Nat) (rerankTopK : Nat)
    (entries : List SEntry) : List Cand :=
  let results := stage1 sq qv threshold entries
  if useRerank && importOk && !results.isEmpty then
    rerankResults crossScore st query (results.take rerankTopK) (some topK)
  else if useRerank && !importOk then
    results.take topK
  else
    results.take topK

/-- `cosine_similarity` of reranker.py: 0.0 when the module is
unavailable, 0.0 when either norm is zero, otherwise the guarded
quotient. -/
def cosineSimilarity (sq : ℚ → ℚ) (available : Bool)
    (a b : List ℚ) : ℚ :=
  if !available then 0
  else
    let na := sq (normSq a)
    let nb := sq (normSq b)
    if na = 0 ∨ nb = 0 then 0
    else dotQ a b / (na * nb)

/-!
Reactive sync daemon (file-watcher.py `SmartFileWatcher`).
-/

/-- The directory a watched file lives in. -/
inductive WDir where
  | active
  | knowledge
  | other
deriving DecidableEq

/-- One filesystem modification event. -/
structure FsEvent where
  isDir : Bool
  name : String
  parent : WDir
  time : ℚ
deriving DecidableEq

/-- Watcher state: one last-accepted timestamp per handler category
(`last_task_plan_update`, `last_context_update`,
`last_knowledge_update`), all initialized to 0. -/
structure WatcherState where
  lastTaskPlanUpdate : ℚ
  lastContextUpdate : ℚ
  lastKnowledgeUpdate : ℚ
deriving DecidableEq

/-- `debounce_seconds` of `SmartFileWatcher.__init__`. -/
def debounceSeconds : ℚ := 2

/-- `SmartFileWatcher.on_modified`: returns the new state and whether
the event was accepted (its handler ran). -/
def onModified (st : WatcherState) (e : FsEvent) : WatcherState × Bool :=
  if e.isDir then (st, false)
  else if e.name = "task_plan.md" ∧ e.parent = WDir.active then
    (if debounceSeconds < e.time - st.lastTaskPlanUpdate then
      ({ st with lastTaskPlanUpdate := e.time }, true)
    else (st, false))
  else if e.name = "context.md" ∧ e.parent = WDir.active then
    (if debounceSeconds < e.time - st.lastContextUpdate then
      ({ st with lastContextUpdate := e.time }, true)
    else (st, false))
  else if e.parent = WDir.knowledge ∧ suffixOf e.name = ".md" then
    (if debounceSeconds < e.time - st.lastKnowledgeUpdate then
      ({ st with lastKnowledgeUpdate := e.time }, true)
    else (st, false))
  else (st, false)

/-- Feed a list of events through the watcher, collecting the
acceptance flag of each. -/
def runEvents (st : WatcherState) : List FsEvent → WatcherState × List Bool
  | [] => (st, [])
  | e :: es =>
      let r := onModified st e
      let rs := runEvents r.1 es
      (rs.1, r.2 :: rs.2)

/-- Does the event match one of the three watch rules at all? -/
def matchesWatchRule (e : FsEvent) : Bool :=
  !e.isDir &&
    (decide (e.name = "task_plan.md" ∧ e.parent = WDir.active)
     || decide (e.name = "context.md" ∧ e.parent = WDir.active)
     || decide (e.parent = WDir.knowledge ∧ suffixOf e.name = ".md"))

/-- A key identifying a watched path (directory plus file name). -/
def pathKey (e : FsEvent) : String :=
  (match e.parent with
   | .active => "active/"
   | .knowledge => "knowledge/"
   | .other => "other/") ++ e.name

/-- The per-path debounce automaton that the specification describes:
one last-accepted timestamp per watched path, an event being accepted
exactly when it matches a watch rule and more than the debounce window
has elapsed since the last accepted event on that same path (a path with
no previously accepted event always accepts). -/
def claimedPerPathRun (last : Store ℚ) : List FsEvent → Store ℚ × List Bool
  | [] => (last, [])
  | e :: es =>
      let accept := matchesWatchRule e &&
        (match Store.get (pathKey e) last with
         | none => true
         | some t0 => decide (debounceSeconds < e.time - t0))
      let last' := if accept then Store.set (pathKey e) e.time last else last
      let rs := claimedPerPathRun last' es
      (rs.1, accept :: rs.2)

/-!
Helper lemmas about the embedding pipeline.
-/

theorem mkSectionRecs_length (mark stem fname : String) (i : Nat)
    (l : List String) :
    (mkSectionRecs mark stem fname i l).length = l.length := by
  induction l generalizing i with
  | nil => rfl
  | cons s rest ih => simp [mkSectionRecs, ih]

theorem mkSectionRecs_map_id (mark stem fname : String) (i : Nat)
    (l : List String) :
    (mkSectionRecs mark stem fname i l).map SectionRec.id
      = (List.range' i l.length).map (fun j => stem ++ "_section_" ++ toString j) := by
  induction l generalizing i with
  | nil => rfl
  | cons s rest ih => simp [mkSectionRecs, List.range', ih]


/-!
Helper lemmas about the embedding pipeline.
-/

theorem loadHashCache_valid (es : Store String) :
    loadHashCache (.valid es) = es := rfl

/-- `check_and_embed_file` on the embedding path: file present, digest
nonempty, not reported up to date, parse nonempty. -/
theorem checkAndEmbedFile_embed (sha : String → String)
    (encode : List String → List (List ℚ)) (fs : String → Option String)
    (f : String) (vectors : Store IndexData) (cache : Store String)
    (force : Bool) (c : String)
    (hf : fs f = some c) (h1 : sha c ≠ "")
    (h2 : ¬(sha c = (Store.get f cache).getD "" ∧ force = false))
    (h3 : parseSections f c ≠ []) :
    checkAndEmbedFile sha encode fs f vectors cache force
      = (Store.set (stemOf f)
           (mkIndexData f (parseSections f c)
             (encode ((parseSections f c).map SectionRec.content))) vectors,
         Store.set f (sha c) cache, true) := by
  unfold checkAndEmbedFile hashFile
  rw [hf]
  dsimp only [Option.getD_some]
  rw [if_neg h1, if_neg h2, if_neg h3]

/-- `check_and_embed_file` on any skip path: missing file, digest match
with no force, or empty parse. -/
theorem checkAndEmbedFile_skip (sha : String → String)
    (encode : List String → List (List ℚ)) (fs : String → Option String)
    (f : String) (vectors : Store IndexData) (cache : Store String)
    (force : Bool)
    (h : hashFile sha fs f = ""
      ∨ (∃ c, fs f = some c
          ∧ ((sha c = (Store.get f cache).getD "" ∧ force = false)
             ∨ parseSections f c = []))) :
    checkAndEmbedFile sha encode fs f vectors cache force
      = (vectors, cache, false) := by
  unfold checkAndEmbedFile hashFile
  rcases h with h | ⟨c, hf, h⟩
  · unfold hashFile at h
    rw [h]
    rw [if_pos rfl]
  · rw [hf]
    dsimp only [Option.getD_some]
    rcases h with h | h
    · by_cases h1 : sha c = ""
      · rw [if_pos h1]
      · rw [if_neg h1, if_pos h]
    · by_cases h1 : sha c = ""
      · rw [if_pos h1]
      · by_cases h2 : sha c = (Store.get f cache).getD "" ∧ force = false
        · rw [if_neg h1, if_pos h2]
        · rw [if_neg h1, if_neg h2, if_pos h]

/-- Either `check_and_embed_file` skips (returning everything unchanged
and `false`), or the document was re-embedded: index entry and cache
entry written, result `true`. -/
theorem checkAndEmbedFile_cases (sha : String → String)
    (encode : List String → List (List ℚ)) (fs : String → Option String)
    (f : String) (vectors : Store IndexData) (cache : Store String)
    (force : Bool) :
    checkAndEmbedFile sha encode fs f vectors cache force
        = (vectors, cache, false)
    ∨ (∃ c, fs f = some c ∧ sha c ≠ ""
        ∧ ¬(sha c = (Store.get f cache).getD "" ∧ force = false)
        ∧ parseSections f c ≠ []
        ∧ checkAndEmbedFile sha encode fs f vectors cache force
            = (Store.set (stemOf f)
                 (mkIndexData f (parseSections f c)
                   (encode ((parseSections f c).map SectionRec.content))) vectors,
               Store.set f (sha c) cache, true)) := by
  cases hfs : fs f with
  | none =>
      exact Or.inl (checkAndEmbedFile_skip sha encode fs f vectors cache force
        (Or.inl (by unfold hashFile; rw [hfs])))
  | some c =>
      by_cases h1 : sha c = ""
      · exact Or.inl (checkAndEmbedFile_skip sha encode fs f vectors cache force
          (Or.inl (by unfold hashFile; rw [hfs]; exact h1)))
      · by_cases h2 : sha c = (Store.get f cache).getD "" ∧ force = false
        · exact Or.inl (checkAndEmbedFile_skip sha encode fs f vectors cache force
            (Or.inr ⟨c, hfs, Or.inl h2⟩))
        · by_cases h3 : parseSections f c = []
          · exact Or.inl (checkAndEmbedFile_skip sha encode fs f vectors cache force
              (Or.inr ⟨c, hfs, Or.inr h3⟩))
          · exact Or.inr ⟨c, rfl, h1, h2, h3,
              checkAndEmbedFile_embed sha encode fs f vectors cache force c hfs h1 h2 h3⟩

/-- C7: parsing is a pure function of document name and text: repeated
parses agree, record identifiers are `{stem}_section_{ordinal}` with
ordinals starting at 1 in document order, and the cache_manager parser
computes the same records as the auto-embedder parser. -/
theorem c7_parse_deterministic (name content : String) :
    parseSections name content = parseSections name content
    ∧ (parseSections name content).map SectionRec.id
        = (List.range' 1 (parseSections name content).length).map
            (fun i => stemOf name ++ "_section_" ++ toString i)
    ∧ parseSectionsCachedCore name content = parseSections name content := by
  refine ⟨rfl, ?_, ?_⟩
  · unfold parseSections
    rw [mkSectionRecs_length, mkSectionRecs_map_id]
  · unfold parseSectionsCachedCore parseSections
    have h : getSectionMark name = sectionMarkOf name := rfl
    rw [h]

/-- C8: a document whose current text parses to zero records is
skipped: the vectors directory is untouched, the sync reports
`updated = false`, and the persisted hash cache keeps exactly the
previously loaded mapping (no digest is committed for the document). -/
theorem c8_empty_parse_skips (sha : String → String)
    (encode : List String → List (List ℚ)) (fs : String → Option String)
    (f c : String) (vectors : Store IndexData) (persisted : CacheFile)
    (hf : fs f = some c) (hparse : parseSections f c = []) :
    syncDoc sha encode fs f vectors persisted
      = { vectors := vectors, persisted := .valid (loadHashCache persisted),
          updated := false } := by
  have h := checkAndEmbedFile_skip sha encode fs f vectors
    (loadHashCache persisted) false (Or.inr ⟨c, hf, Or.inr hparse⟩)
  unfold syncDoc
  dsimp only
  rw [h]

/-- C10: a missing or unparsable hash-cache file loads as the empty
mapping, under which an existing, parsable document is treated as
changed: `check_and_embed_file` re-embeds it, writes its index file and
records its fresh digest. -/
theorem c10_corrupt_cache_fails_safe (sha : String → String)
    (encode : List String → List (List ℚ)) (fs : String → Option String)
    (f c : String) (vectors : Store IndexData)
    (hf : fs f = some c) (hsha : sha c ≠ "")
    (hparse : parseSections f c ≠ []) :
    loadHashCache .missing = [] ∧ loadHashCache .corrupt = []
    ∧ checkAndEmbedFile sha encode fs f vectors [] false
        = (Store.set (stemOf f)
             (mkIndexData f (parseSections f c)
               (encode ((parseSections f c).map SectionRec.content))) vectors,
           Store.set f (sha c) [], true) := by
  refine ⟨rfl, rfl, ?_⟩
  exact checkAndEmbedFile_embed sha encode fs f vectors [] false c hf hsha
    (fun h => hsha h.1) hparse

/-- C2: syncing a document that exists, parses to at least one record
and whose digest differs from the cached one reports `updated = true`,
and an immediately repeated sync with no intervening write reports
`updated = false`. -/
theorem c2_sync_idempotent (sha : String → String)
    (encode : List String → List (List ℚ)) (fs : String → Option String)
    (f c : String) (vectors : Store IndexData) (persisted : CacheFile)
    (hf : fs f = some c) (hsha : sha c ≠ "")
    (hdiff : sha c ≠ (Store.get f (loadHashCache persisted)).getD "")
    (hparse : parseSections f c ≠ []) :
    (syncDoc sha encode fs f vectors persisted).updated = true
    ∧ (syncDoc sha encode fs f
        (syncDoc sha encode fs f vectors persisted).vectors
        (syncDoc sha encode fs f vectors persisted).persisted).updated = false := by
  have h1 := checkAndEmbedFile_embed sha encode fs f vectors
    (loadHashCache persisted) false c hf hsha (fun h => hdiff h.1) hparse
  have hs1 : syncDoc sha encode fs f vectors persisted
      = { vectors := Store.set (stemOf f)
            (mkIndexData f (parseSections f c)
              (encode ((parseSections f c).map SectionRec.content))) vectors,
          persisted := .valid (Store.set f (sha c) (loadHashCache persisted)),
          updated := true } := by
    unfold syncDoc
    dsimp only
    rw [h1]
  refine ⟨by rw [hs1], ?_⟩
  rw [hs1]
  have h2 := checkAndEmbedFile_skip sha encode fs f
    (Store.set (stemOf f)
      (mkIndexData f (parseSections f c)
        (encode ((parseSections f c).map SectionRec.content))) vectors)
    (Store.set f (sha c) (loadHashCache persisted)) false
    (Or.inr ⟨c, hf, Or.inl ⟨by rw [Store.get_set_self]; rfl, rfl⟩⟩)
  unfold syncDoc
  dsimp only
  rw [loadHashCache_valid, h2]

/-!
Concrete fixtures used by the witnesses.
-/

/-- A digest function for witnesses (nonempty, prefix-injective). -/
def wSha (s : String) : String := "#" ++ s

/-- An embedding service for witnesses. -/
def wEncode (ts : List String) : List (List ℚ) := ts.map (fun _ => [1])

def wDoc : String := "\n## Pattern: A\nbody"

def wFs (n : String) : Option String :=
  if n = "patterns.md" then some wDoc else none

def wEmptyDoc : String := "plain text"

def wFsEmpty (n : String) : Option String :=
  if n = "plain.md" then some wEmptyDoc else none

theorem c8_witness :
    syncDoc wSha wEncode wFsEmpty "plain.md" [] .missing
      = { vectors := [], persisted := .valid (loadHashCache CacheFile.missing),
          updated := false } :=
  c8_empty_parse_skips wSha wEncode wFsEmpty "plain.md" wEmptyDoc [] .missing
    (by decide) (by decide)

theorem c10_witness :
    loadHashCache .missing = [] ∧ loadHashCache .corrupt = []
    ∧ checkAndEmbedFile wSha wEncode wFs "patterns.md" [] [] false
        = (Store.set (stemOf "patterns.md")
             (mkIndexData "patterns.md" (parseSections "patterns.md" wDoc)
               (wEncode ((parseSections "patterns.md" wDoc).map SectionRec.content))) [],
           Store.set "patterns.md" (wSha wDoc) [], true) :=
  c10_corrupt_cache_fails_safe wSha wEncode wFs "patterns.md" wDoc []
    (by decide) (by decide) (by decide)

theorem c2_witness :
    (syncDoc wSha wEncode wFs "patterns.md" [] .missing).updated = true
    ∧ (syncDoc wSha wEncode wFs "patterns.md"
        (syncDoc wSha wEncode wFs "patterns.md" [] .missing).vectors
        (syncDoc wSha wEncode wFs "patterns.md" [] .missing).persisted).updated = false :=
  c2_sync_idempotent wSha wEncode wFs "patterns.md" wDoc [] .missing
    (by decide) (by decide) (by decide) (by decide)

/-!
The hash-index consistency invariant of `auto_embed_all` (claim C1).
-/

/-- Invariant of the `auto_embed_all` loop: every file re-embedded so
far had its index file written (event emitted) and its in-memory cache
digest set to the digest of its current bytes, with the index entry
regenerated from exactly that current text. -/
def embedGood (sha : String → String) (encode : List String → List (List ℚ))
    (fs : String → Option String) (st : EmbedRun) : Prop :=
  ∀ f ∈ st.updatedFiles,
    TraceEv.writeIndex (stemOf f) ∈ st.writeEvents ∧
    ∃ c, fs f = some c ∧ Store.get f st.cache = some (sha c) ∧
      Store.get (stemOf f) st.vectors
        = some (mkIndexData f (parseSections f c)
            (encode ((parseSections f c).map SectionRec.content)))

theorem autoEmbedStep_good (sha : String → String)
    (encode : List String → List (List ℚ)) (fs : String → Option String)
    (st : EmbedRun) (f : String)
    (hst : embedGood sha encode fs st)
    (hsep : ∀ g ∈ st.updatedFiles, g = f ∨ (g ≠ f ∧ stemOf g ≠ stemOf f)) :
    embedGood sha encode fs (autoEmbedStep sha encode fs st f)
    ∧ ∀ g ∈ (autoEmbedStep sha encode fs st f).updatedFiles,
        g ∈ st.updatedFiles ∨ g = f := by
  rcases checkAndEmbedFile_cases sha encode fs f st.vectors st.cache false with
    hskip | ⟨c, hfc, h1, h2, h3, hembed⟩
  · have hstep : autoEmbedStep sha encode fs st f = st := by
      unfold autoEmbedStep
      by_cases hex : (fs f).isSome = true
      · rw [if_pos hex]
        dsimp only
        rw [hskip]
        simp
      · rw [if_neg hex]
    rw [hstep]
    exact ⟨hst, fun g hg => Or.inl hg⟩
  · have hex : (fs f).isSome = true := by rw [hfc]; rfl
    have hstep : autoEmbedStep sha encode fs st f
        = { vectors := Store.set (stemOf f)
              (mkIndexData f (parseSections f c)
                (encode ((parseSections f c).map SectionRec.content))) st.vectors,
            cache := Store.set f (sha c) st.cache,
            writeEvents := st.writeEvents ++ [TraceEv.writeIndex (stemOf f)],
            updatedFiles := st.updatedFiles ++ [f] } := by
      unfold autoEmbedStep
      rw [if_pos hex]
      dsimp only
      rw [hembed]
      rfl
    rw [hstep]
    constructor
    · intro g hg
      rcases List.mem_append.mp hg with hg | hg
      · rcases hst g hg with ⟨hw, cg, hcg, hcache, hvec⟩
        rcases hsep g hg with rfl | ⟨hne, hstem⟩
        · exfalso
          apply h2
          have hceq : cg = c := by
            rw [hfc] at hcg
            exact (Option.some.inj hcg).symm
          subst hceq
          exact ⟨by rw [hcache]; rfl, rfl⟩
        · exact ⟨List.mem_append_left _ hw, cg, hcg,
            by rw [Store.get_set_ne f g (sha c) st.cache hne]; exact hcache,
            by rw [Store.get_set_ne (stemOf f) (stemOf g) _ st.vectors hstem]
               exact hvec⟩
      · have hgf : g = f := by simpa using hg
        subst hgf
        refine ⟨List.mem_append_right _ (by simp), c, hfc, ?_, ?_⟩
        · rw [Store.get_set_self]
        · rw [Store.get_set_self]
    · intro g hg
      rcases List.mem_append.mp hg with hg | hg
      · exact Or.inl hg
      · exact Or.inr (by simpa using hg)

theorem foldl_autoEmbed_good (sha : String → String)
    (encode : List String → List (List ℚ)) (fs : String → Option String)
    (files : List String) (st : EmbedRun)
    (hst : embedGood sha encode fs st)
    (hdisj : files.Pairwise (fun a b => a ≠ b ∧ stemOf a ≠ stemOf b))
    (hsep : ∀ g ∈ st.updatedFiles, ∀ f ∈ files,
        g = f ∨ (g ≠ f ∧ stemOf g ≠ stemOf f)) :
    embedGood sha encode fs (files.foldl (autoEmbedStep sha encode fs) st) := by
  induction files generalizing st with
  | nil => simpa using hst
  | cons f rest ih =>
      rcases List.pairwise_cons.mp hdisj with ⟨hf, hrest⟩
      obtain ⟨hgood, hsub⟩ := autoEmbedStep_good sha encode fs st f hst
        (fun g hg => hsep g hg f (by simp))
      have hsep' : ∀ g ∈ (autoEmbedStep sha encode fs st f).updatedFiles,
          ∀ f' ∈ rest, g = f' ∨ (g ≠ f' ∧ stemOf g ≠ stemOf f') := by
        intro g hg f' hf'
        rcases hsub g hg with hg' | rfl
        · exact hsep g hg' f' (by simp [hf'])
        · exact Or.inr (hf f' hf')
      exact ih (autoEmbedStep sha encode fs st f) hgood hrest hsep'

/-- C1: in every `auto_embed_all` run, all index-file writes happen
before the single persisted hash-cache commit (the commit is the last
trace event), every re-embedded document has its index write event in
the trace before the commit, and the committed digest of every
re-embedded document is the digest of its current bytes with the index
entry regenerated from exactly that text. -/
theorem c1_index_before_commit (sha : String → String)
    (encode : List String → List (List ℚ)) (fs : String → Option String)
    (v0 : Store IndexData) (p0 : CacheFile) :
    ∃ pre : List TraceEv,
      (autoEmbedAll sha encode fs v0 p0).trace
        = pre ++ [TraceEv.persistCache
            (loadHashCache (autoEmbedAll sha encode fs v0 p0).persisted)]
      ∧ ∀ f ∈ (autoEmbedAll sha encode fs v0 p0).updatedFiles,
          TraceEv.writeIndex (stemOf f) ∈ pre
          ∧ ∃ c, fs f = some c
              ∧ Store.get f
                  (loadHashCache (autoEmbedAll sha encode fs v0 p0).persisted)
                  = some (sha c)
              ∧ Store.get (stemOf f) (autoEmbedAll sha encode fs v0 p0).vectors
                  = some (mkIndexData f (parseSections f c)
                      (encode ((parseSections f c).map SectionRec.content))) := by
  have hgood := foldl_autoEmbed_good sha encode fs knowledgeFiles
    { vectors := v0, cache := loadHashCache p0, writeEvents := [],
      updatedFiles := [] }
    (fun g hg => absurd hg (by simp))
    (by decide)
    (fun g hg => absurd hg (by simp))
  unfold autoEmbedAll
  dsimp only
  rw [loadHashCache_valid]
  exact ⟨_, rfl, fun f hf => hgood f hf⟩

theorem c1_witness :
    TraceEv.writeIndex "patterns" ∈ (autoEmbedAll wSha wEncode wFs [] .missing).trace
    ∧ Store.get "patterns.md"
        (loadHashCache (autoEmbedAll wSha wEncode wFs [] .missing).persisted)
        = some (wSha wDoc) := by
  obtain ⟨pre, htr, hupd⟩ := c1_index_before_commit wSha wEncode wFs [] .missing
  have hmem : "patterns.md" ∈ (autoEmbedAll wSha wEncode wFs [] .missing).updatedFiles := by
    decide
  obtain ⟨hw, c, hc, hdig, hvec⟩ := hupd "patterns.md" hmem
  have hc2 : wFs "patterns.md" = some wDoc := by decide
  rw [hc2] at hc
  have hc3 : c = wDoc := (Option.some.inj hc).symm
  subst hc3
  have hstem : stemOf "patterns.md" = "patterns" := by decide
  rw [hstem] at hw
  exact ⟨by rw [htr]; exact List.mem_append_left _ hw, hdig⟩

/-!
Error fingerprint deduplication (claim C3).
-/

/-- The appended failures entry always contains its own fingerprint tag,
wherever in the document it lands. -/
theorem containsSub_entryText (e : ErrorData) (fp x : String) :
    containsSub (fingerprintTag fp) (x ++ entryTextFor e fp) = true := by
  unfold containsSub entryTextFor
  simp only [stringData_append]
  exact hasSubChain_append_left _ _ _
    (hasSubChain_append_left _ _ _
      (hasSubChain_append_left _ _ _
        (hasSubChain_of_startsWithCh _ _ (startsWithCh_self_append _ _))))

/-- C3: two captured errors whose symptom and stack context normalize
identically (differing only in the volatile parts the normalizer
replaces: dates, times, durations, paths, line numbers, addresses) get
the same 12-character fingerprint; capturing the first appends its
tagged entry to the failures document, and capturing the second finds
the tag anywhere in the document and leaves it unchanged. -/
theorem c3_fingerprint_dedup (md5f : String → String) (e1 e2 : ErrorData)
    (c0 : String)
    (hsym : normalizeSymptom e1.symptom = normalizeSymptom e2.symptom)
    (hstk : stackSig e1.stackTrace = stackSig e2.stackTrace)
    (hlen : 12 ≤ (md5f (normalizeSymptom e1.symptom
        ++ stackSig e1.stackTrace)).data.length)
    (h0 : containsSub
        (fingerprintTag (generateErrorFingerprint md5f e1.symptom e1.stackTrace))
        c0 = false) :
    generateErrorFingerprint md5f e1.symptom e1.stackTrace
      = generateErrorFingerprint md5f e2.symptom e2.stackTrace
    ∧ (generateErrorFingerprint md5f e1.symptom e1.stackTrace).length = 12
    ∧ addToFailuresMd md5f (some c0) e1
        = some (c0 ++ entryTextFor e1
            (generateErrorFingerprint md5f e1.symptom e1.stackTrace))
    ∧ addToFailuresMd md5f (addToFailuresMd md5f (some c0) e1) e2
        = addToFailuresMd md5f (some c0) e1 := by
  have hfp : generateErrorFingerprint md5f e1.symptom e1.stackTrace
      = generateErrorFingerprint md5f e2.symptom e2.stackTrace := by
    unfold generateErrorFingerprint
    rw [hsym, hstk]
  have hadd1 : addToFailuresMd md5f (some c0) e1
      = some (c0 ++ entryTextFor e1
          (generateErrorFingerprint md5f e1.symptom e1.stackTrace)) := by
    unfold addToFailuresMd
    dsimp only
    rw [h0]
    simp
  refine ⟨hfp, ?_, hadd1, ?_⟩
  · show ((md5f (normalizeSymptom e1.symptom
        ++ stackSig e1.stackTrace)).data.take 12).length = 12
    rw [List.length_take]
    exact Nat.min_eq_left hlen
  · rw [hadd1]
    unfold addToFailuresMd
    dsimp only
    rw [← hfp]
    rw [containsSub_entryText]
    simp

/-- An MD5 hexdigest stand-in for witnesses (32 hex characters). -/
def wMd5 : String → String := fun _ => "0123456789abcdef0123456789abcdef"

def wErr1 : ErrorData :=
  { symptom := "err /a/b/x.py:12: 2024-01-02", timestamp := "t1",
    command := none, stackTrace := "" }

def wErr2 : ErrorData :=
  { symptom := "err /q/w/x.py:77: 2025-11-30", timestamp := "t2",
    command := some "npm test", stackTrace := "" }

def wFail0 : String := "# Failures"

theorem c3_witness :
    generateErrorFingerprint wMd5 wErr1.symptom wErr1.stackTrace
      = generateErrorFingerprint wMd5 wErr2.symptom wErr2.stackTrace
    ∧ (generateErrorFingerprint wMd5 wErr1.symptom wErr1.stackTrace).length = 12
    ∧ addToFailuresMd wMd5 (some wFail0) wErr1
        = some (wFail0 ++ entryTextFor wErr1
            (generateErrorFingerprint wMd5 wErr1.symptom wErr1.stackTrace))
    ∧ addToFailuresMd wMd5 (addToFailuresMd wMd5 (some wFail0) wErr1) wErr2
        = addToFailuresMd wMd5 (some wFail0) wErr1 :=
  c3_fingerprint_dedup wMd5 wErr1 wErr2 wFail0 (by decide) (by decide)
    (by decide) (by decide)

/-!
Zero-norm handling in the retrieval scan (claim C4).
-/

/-- C4 (amended): every Stage-1 result originates from a scanned entry
with nonzero-norm stored vector, carrying exactly the
dot-over-norm-product similarity, so zero-norm entries never enter the
candidate set (their float similarity is NaN, which fails the threshold
test); and `reranker.cosine_similarity` explicitly guards zero norms,
returning 0.  The division by zero itself does occur in
`search_semantic` (see the counterexample via `stage1DividesByZero`). -/
theorem c4_zero_norm_excluded (sq : ℚ → ℚ) (hsq : ∀ x : ℚ, sq x = 0 ↔ x = 0)
    (qv : List ℚ) (threshold : ℚ) (entries : List SEntry) :
    ((stage1 sq qv threshold entries).all (fun r => entries.any (fun e =>
        decide (e.etype = r.ctype ∧ e.header = r.header ∧ e.content = r.content
          ∧ normSq e.embedding ≠ 0
          ∧ r.similarity = dotQ qv e.embedding
              / (sq (normSq qv) * sq (normSq e.embedding))))) = true)
    ∧ ∀ a b : List ℚ, normSq a = 0 ∨ normSq b = 0 →
        cosineSimilarity sq true a b = 0 := by
  constructor
  · rw [List.all_eq_true]
    intro r hr
    have hr' := (mem_sortDescBy Cand.similarity _ r).mp hr
    rw [List.mem_filterMap] at hr'
    obtain ⟨e, he, hfe⟩ := hr'
    by_cases hden : sq (normSq qv) * sq (normSq e.embedding) = 0
    · rw [if_pos hden] at hfe
      cases hfe
    · rw [if_neg hden] at hfe
      by_cases hth : threshold ≤ dotQ qv e.embedding
          / (sq (normSq qv) * sq (normSq e.embedding))
      · rw [if_pos hth] at hfe
        have hre := Option.some.inj hfe
        rw [List.any_eq_true]
        refine ⟨e, he, ?_⟩
        rw [decide_eq_true_eq]
        have hne : normSq e.embedding ≠ 0 := fun h0 =>
          hden (by rw [(hsq (normSq e.embedding)).mpr h0, mul_zero])
        rw [← hre]
        exact ⟨rfl, rfl, rfl, hne, rfl⟩
      · rw [if_neg hth] at hfe
        cases hfe
  · intro a b hab
    unfold cosineSimilarity
    simp only [Bool.not_true, Bool.false_eq_true, if_false]
    rcases hab with h | h
    · rw [if_pos (Or.inl ((hsq (normSq a)).mpr h))]
    · rw [if_pos (Or.inr ((hsq (normSq b)).mpr h))]

/-- A persisted index entry whose stored vector has zero norm. -/
def wZeroEntry : SEntry :=
  { etype := "patterns", header := "h", content := "c", embedding := [0] }

/-- C4 counterexample: scanning an index holding a zero-norm entry makes
`search_semantic` evaluate the similarity quotient with a zero
denominator (a float division by zero producing NaN), contradicting the
claim that the query never divides by zero. -/
theorem c4_counterexample :
    stage1DividesByZero id [1] [wZeroEntry] = true
    ∧ normSq wZeroEntry.embedding = 0 := by
  constructor
  · simp [stage1DividesByZero, wZeroEntry, normSq, dotQ]
  · simp [wZeroEntry, normSq, dotQ]

theorem c4_witness :
    ((stage1 id [1] 0 [wZeroEntry]).all (fun r => [wZeroEntry].any (fun e =>
        decide (e.etype = r.ctype ∧ e.header = r.header ∧ e.content = r.content
          ∧ normSq e.embedding ≠ 0
          ∧ r.similarity = dotQ [1] e.embedding
              / (id (normSq [1]) * id (normSq e.embedding))))) = true)
    ∧ cosineSimilarity id true [0] [1] = 0 :=
  ⟨(c4_zero_norm_excluded id (fun _ => Iff.rfl) [1] 0 [wZeroEntry]).1,
   (c4_zero_norm_excluded id (fun _ => Iff.rfl) [0] 0 []).2 [0] [1]
     (Or.inl (by simp [normSq, dotQ]))⟩

/-!
Stage-2 reranking (claims C5 and C6).
-/

/-- Every Stage-1 candidate records the same value as `similarity` and
as ranking `score`. -/
theorem stage1_score_eq_similarity (sq : ℚ → ℚ) (qv : List ℚ)
    (threshold : ℚ) (entries : List SEntry) :
    ∀ c ∈ stage1 sq qv threshold entries, c.score = c.similarity := by
  intro c hc
  have hc' := (mem_sortDescBy Cand.similarity _ c).mp hc
  rw [List.mem_filterMap] at hc'
  obtain ⟨e, he, hfe⟩ := hc'
  by_cases hden : sq (normSq qv) * sq (normSq e.embedding) = 0
  · rw [if_pos hden] at hfe
    cases hfe
  · rw [if_neg hden] at hfe
    by_cases hth : threshold ≤ dotQ qv e.embedding
        / (sq (normSq qv) * sq (normSq e.embedding))
    · rw [if_pos hth] at hfe
      rw [← Option.some.inj hfe]
    · rw [if_neg hth] at hfe
      cases hfe

/-- C5: with reranking enabled and all stages healthy, the Stage-2
output is drawn from the top-50 Stage-1 candidates (`stage1` sorts by
recall similarity descending), has at most `topK` elements, is ordered
by cross-encoder score descending, and every result carries its rerank
score and its original recall score. -/
theorem c5_rerank_subset_sorted (sq : ℚ → ℚ)
    (crossScore : String → String → ℚ) (query : String) (qv : List ℚ)
    (threshold : ℚ) (topK : Nat) (entries : List SEntry) :
    ((searchSemantic sq crossScore true .ok query qv threshold true topK 50
        entries).all (fun r =>
        ((stage1 sq qv threshold entries).take 50).any (fun c =>
          decide (c.ctype = r.ctype ∧ c.header = r.header
            ∧ c.content = r.content ∧ c.similarity = r.similarity))) = true)
    ∧ (searchSemantic sq crossScore true .ok query qv threshold true topK 50
        entries).length ≤ topK
    ∧ (searchSemantic sq crossScore true .ok query qv threshold true topK 50
        entries).Pairwise (fun a b =>
          b.rerankScore.getD 0 ≤ a.rerankScore.getD 0)
    ∧ ((searchSemantic sq crossScore true .ok query qv threshold true topK 50
        entries).all (fun r =>
        decide (r.rerankScore = some (crossScore query r.content)
          ∧ r.vectorScore = some r.similarity)) = true) := by
  by_cases hempty : stage1 sq qv threshold entries = []
  · have hout : searchSemantic sq crossScore true .ok query qv threshold true
        topK 50 entries = [] := by
      unfold searchSemantic
      rw [hempty]
      simp
    rw [hout, hempty]
    simp
  · have hne50 : (stage1 sq qv threshold entries).take 50 ≠ [] := by
      intro h
      rcases List.take_eq_nil_iff.mp h with h' | h'
      · norm_num at h'
      · exact hempty h'
    have hout : searchSemantic sq crossScore true .ok query qv threshold true
        topK 50 entries
        = (sortDescBy (fun c => c.rerankScore.getD 0)
            (((stage1 sq qv threshold entries).take 50).map (fun c =>
              { c with rerankScore := some (crossScore query c.content),
                       vectorScore := some c.score,
                       score := crossScore query c.content }))).take topK := by
      unfold searchSemantic rerankResults
      rw [if_pos]
      · rw [if_neg hne50]
        rfl
      · simp [hempty]
    have hmem : ∀ r ∈ searchSemantic sq crossScore true .ok query qv threshold
        true topK 50 entries,
        ∃ c ∈ (stage1 sq qv threshold entries).take 50,
          r = { c with rerankScore := some (crossScore query c.content),
                       vectorScore := some c.score,
                       score := crossScore query c.content } := by
      intro r hr
      rw [hout] at hr
      have hr2 := List.mem_of_mem_take hr
      have hr3 := (mem_sortDescBy _ _ r).mp hr2
      rw [List.mem_map] at hr3
      obtain ⟨c, hc, hrc⟩ := hr3
      exact ⟨c, hc, hrc.symm⟩
    refine ⟨?_, ?_, ?_, ?_⟩
    · rw [List.all_eq_true]
      intro r hr
      obtain ⟨c, hc, rfl⟩ := hmem r hr
      rw [List.any_eq_true]
      exact ⟨c, hc, by rw [decide_eq_true_eq]; exact ⟨rfl, rfl, rfl, rfl⟩⟩
    · rw [hout]
      exact List.length_take_le topK _
    · rw [hout]
      exact (sortDescBy_pairwise _ _).sublist (List.take_sublist topK _)
    · rw [List.all_eq_true]
      intro r hr
      obtain ⟨c, hc, rfl⟩ := hmem r hr
      rw [decide_eq_true_eq]
      refine ⟨rfl, ?_⟩
      have hs := stage1_score_eq_similarity sq qv threshold entries c
        (List.mem_of_mem_take hc)
      simp only []
      rw [hs]

/-- C6 (amended): with reranking requested and a requested count between
1 and the rerank pool size (50), every precision-side failure — reranker
module import failure, cross-encoder unavailable, model load failure,
scoring failure — makes the search return the Stage-1 ranking truncated
to the requested count instead of failing the query. -/
theorem c6_degrade_to_stage1 (sq : ℚ → ℚ)
    (crossScore : String → String → ℚ) (query : String) (qv : List ℚ)
    (threshold : ℚ) (topK : Nat) (entries : List SEntry)
    (h1 : 1 ≤ topK) (h2 : topK ≤ 50) :
    searchSemantic sq crossScore false .ok query qv threshold true topK 50
        entries = (stage1 sq qv threshold entries).take topK
    ∧ searchSemantic sq crossScore true .unavailable query qv threshold true
        topK 50 entries = (stage1 sq qv threshold entries).take topK
    ∧ searchSemantic sq crossScore true .loadFail query qv threshold true
        topK 50 entries = (stage1 sq qv threshold entries).take topK
    ∧ searchSemantic sq crossScore true .scoreFail query qv threshold true
        topK 50 entries = (stage1 sq qv threshold entries).take topK := by
  have hmin : min topK 50 = topK := Nat.min_eq_left h2
  have ht0 : topK ≠ 0 := by omega
  by_cases hempty : stage1 sq qv threshold entries = []
  · refine ⟨?_, ?_, ?_, ?_⟩ <;>
      · unfold searchSemantic
        simp [hempty]
  · have hne50 : (stage1 sq qv threshold entries).take 50 ≠ [] := by
      intro h
      rcases List.take_eq_nil_iff.mp h with h' | h'
      · norm_num at h'
      · exact hempty h'
    refine ⟨?_, ?_, ?_, ?_⟩
    · unfold searchSemantic
      simp
    · unfold searchSemantic rerankResults
      rw [if_pos (by simp [hempty])]
      dsimp only
      rw [if_pos ht0, List.take_take, hmin]
    · unfold searchSemantic rerankResults
      rw [if_pos (by simp [hempty])]
      rw [if_neg hne50]
      dsimp only [Option.getD_some]
      rw [List.take_take, hmin]
    · unfold searchSemantic rerankResults
      rw [if_pos (by simp [hempty])]
      rw [if_neg hne50]
      dsimp only [Option.getD_some]
      rw [List.take_take, hmin]

/-- A persisted index entry whose stored vector matches the query
exactly. -/
def wEntry1 : SEntry :=
  { etype := "patterns", header := "h", content := "c", embedding := [1] }

/-- C6 counterexample: with the cross-encoder unavailable and a
requested count of 0, `rerank_results` falls back to
`candidates[:top_k] if top_k else candidates` and returns the whole
candidate pool, not the Stage-1 ranking truncated to the requested
count. -/
theorem c6_counterexample :
    searchSemantic id (fun _ _ => 0) true .unavailable "q" [1] 0 true 0 50
        [wEntry1]
      ≠ (stage1 id [1] 0 [wEntry1]).take 0 := by
  have hs1 : stage1 id [1] 0 [wEntry1]
      = [{ ctype := "patterns", header := "h", content := "c",
           similarity := 1, score := 1, vectorScore := none,
           rerankScore := none }] := by
    norm_num [stage1, wEntry1, normSq, dotQ, sortDescBy, insertDescBy,
      List.filterMap]
  have hsearch : searchSemantic id (fun _ _ => 0) true .unavailable "q" [1] 0
      true 0 50 [wEntry1]
      = [{ ctype := "patterns", header := "h", content := "c",
           similarity := 1, score := 1, vectorScore := none,
           rerankScore := none }] := by
    unfold searchSemantic
    rw [hs1]
    norm_num [rerankResults]
  rw [hsearch, hs1]
  simp

theorem c6_witness :
    searchSemantic id (fun _ _ => 0) false .ok "q" [1] 0 true 1 50 [wEntry1]
        = (stage1 id [1] 0 [wEntry1]).take 1
    ∧ searchSemantic id (fun _ _ => 0) true .unavailable "q" [1] 0 true 1 50
        [wEntry1] = (stage1 id [1] 0 [wEntry1]).take 1
    ∧ searchSemantic id (fun _ _ => 0) true .loadFail "q" [1] 0 true 1 50
        [wEntry1] = (stage1 id [1] 0 [wEntry1]).take 1
    ∧ searchSemantic id (fun _ _ => 0) true .scoreFail "q" [1] 0 true 1 50
        [wEntry1] = (stage1 id [1] 0 [wEntry1]).take 1 :=
  c6_degrade_to_stage1 id (fun _ _ => 0) "q" [1] 0 1 [wEntry1]
    (by decide) (by decide)

/-!
Debounce behavior of the reactive sync daemon (claim C9).
-/

theorem runEvents_cons (st : WatcherState) (e : FsEvent) (es : List FsEvent) :
    (runEvents st (e :: es)).2
      = (onModified st e).2 :: (runEvents (onModified st e).1 es).2 := rfl

/-- `on_modified` on a knowledge-directory markdown file reduces to the
shared knowledge-category debounce check. -/
theorem onModified_knowledge (st : WatcherState) (n : String) (t : ℚ)
    (hs : suffixOf n = ".md") :
    onModified st ⟨false, n, WDir.knowledge, t⟩
      = if debounceSeconds < t - st.lastKnowledgeUpdate
        then ({ st with lastKnowledgeUpdate := t }, true) else (st, false) := by
  unfold onModified
  dsimp only
  rw [if_neg (by simp)]
  rw [if_neg (fun h => WDir.noConfusion h.2)]
  rw [if_neg (fun h => WDir.noConfusion h.2)]
  rw [if_pos ⟨rfl, hs⟩]

/-- C9 (amended): the watcher debounces per handler category, not per
path: an event is accepted exactly when it is a non-directory event
matching one of the three watch rules whose category timestamp is more
than the 2-second window old.  For a single knowledge document the
claimed scenarios hold: events 0.5s apart yield one accepted handling,
events 3s apart yield two.  (Two different knowledge documents share the
same category window — see the counterexample.) -/
theorem c9_category_debounce :
    (∀ (st : WatcherState) (e : FsEvent),
      (onModified st e).2 = true ↔
        (e.isDir = false ∧
          ((e.name = "task_plan.md" ∧ e.parent = WDir.active
              ∧ debounceSeconds < e.time - st.lastTaskPlanUpdate)
           ∨ (e.name = "context.md" ∧ e.parent = WDir.active
              ∧ debounceSeconds < e.time - st.lastContextUpdate)
           ∨ (e.parent = WDir.knowledge ∧ suffixOf e.name = ".md"
              ∧ debounceSeconds < e.time - st.lastKnowledgeUpdate))))
    ∧ (∀ (n : String) (t : ℚ), suffixOf n = ".md" → debounceSeconds < t →
        (runEvents ⟨0, 0, 0⟩
            [⟨false, n, WDir.knowledge, t⟩,
             ⟨false, n, WDir.knowledge, t + 1/2⟩]).2 = [true, false]
        ∧ (runEvents ⟨0, 0, 0⟩
            [⟨false, n, WDir.knowledge, t⟩,
             ⟨false, n, WDir.knowledge, t + 3⟩]).2 = [true, true]) := by
  constructor
  · intro st e
    unfold onModified
    by_cases hd : e.isDir = true
    · simp [hd]
    · rw [if_neg hd]
      have hd' : e.isDir = false := by simpa using hd
      by_cases h1 : e.name = "task_plan.md" ∧ e.parent = WDir.active
      · rw [if_pos h1]
        by_cases hb : debounceSeconds < e.time - st.lastTaskPlanUpdate
        · rw [if_pos hb]
          simp [h1.1, h1.2, hb, hd']
        · rw [if_neg hb]
          simp [h1.1, h1.2, hb]
      · rw [if_neg h1]
        by_cases h2 : e.name = "context.md" ∧ e.parent = WDir.active
        · rw [if_pos h2]
          by_cases hb : debounceSeconds < e.time - st.lastContextUpdate
          · rw [if_pos hb]
            simp [h2.1, h2.2, hb, hd']
          · rw [if_neg hb]
            simp [h2.1, h2.2, hb]
        · rw [if_neg h2]
          by_cases h3 : e.parent = WDir.knowledge ∧ suffixOf e.name = ".md"
          · rw [if_pos h3]
            by_cases hb : debounceSeconds < e.time - st.lastKnowledgeUpdate
            · rw [if_pos hb]
              simp [h3.1, h3.2, hb, hd']
            · rw [if_neg hb]
              simp [h3.1, h3.2, hb]
          · rw [if_neg h3]
            refine ⟨fun hc => absurd hc (by simp), ?_⟩
            rintro ⟨-, (⟨ha, hp, -⟩ | ⟨ha, hp, -⟩ | ⟨hp, hs', -⟩)⟩
            · exact (h1 ⟨ha, hp⟩).elim
            · exact (h2 ⟨ha, hp⟩).elim
            · exact (h3 ⟨hp, hs'⟩).elim
  · intro n t hs ht
    have acc1 : onModified ⟨0, 0, 0⟩ ⟨false, n, WDir.knowledge, t⟩
        = (⟨0, 0, t⟩, true) := by
      rw [onModified_knowledge _ n t hs]
      rw [if_pos (by simpa [debounceSeconds] using ht)]
    have acc2 : onModified ⟨0, 0, t⟩ ⟨false, n, WDir.knowledge, t + 1/2⟩
        = (⟨0, 0, t⟩, false) := by
      rw [onModified_knowledge _ n _ hs]
      rw [if_neg (by
        rw [show t + 1/2 - t = 1/2 by ring]
        norm_num [debounceSeconds])]
    have acc3 : onModified ⟨0, 0, t⟩ ⟨false, n, WDir.knowledge, t + 3⟩
        = (⟨0, 0, t + 3⟩, true) := by
      rw [onModified_knowledge _ n _ hs]
      rw [if_pos (by
        rw [show t + 3 - t = 3 by ring]
        norm_num [debounceSeconds])]
    constructor
    · rw [runEvents_cons, acc1]
      dsimp only
      rw [runEvents_cons, acc2]
      rfl
    · rw [runEvents_cons, acc1]
      dsimp only
      rw [runEvents_cons, acc3]
      rfl

/-- C9 counterexample: an accepted event on `knowledge/patterns.md`
makes the watcher drop an event on the different path
`knowledge/failures.md` arriving 0.5s later, because both share the one
`last_knowledge_update` timestamp; the claimed per-path automaton
accepts both. -/
theorem c9_counterexample :
    (runEvents ⟨0, 0, 0⟩
        [⟨false, "patterns.md", WDir.knowledge, 10⟩,
         ⟨false, "failures.md", WDir.knowledge, 21/2⟩]).2
      ≠ (claimedPerPathRun []
        [⟨false, "patterns.md", WDir.knowledge, 10⟩,
         ⟨false, "failures.md", WDir.knowledge, 21/2⟩]).2 := by
  have acc1 : onModified ⟨0, 0, 0⟩ ⟨false, "patterns.md", WDir.knowledge, 10⟩
      = (⟨0, 0, 10⟩, true) := by
    rw [onModified_knowledge _ _ _ (by decide)]
    rw [if_pos (by norm_num [debounceSeconds])]
  have acc2 : onModified ⟨0, 0, 10⟩ ⟨false, "failures.md", WDir.knowledge, 21/2⟩
      = (⟨0, 0, 10⟩, false) := by
    rw [onModified_knowledge _ _ _ (by decide)]
    rw [if_neg (by norm_num [debounceSeconds])]
  have hcode : (runEvents ⟨0, 0, 0⟩
      [⟨false, "patterns.md", WDir.knowledge, 10⟩,
       ⟨false, "failures.md", WDir.knowledge, 21/2⟩]).2 = [true, false] := by
    rw [runEvents_cons, acc1]
    dsimp only
    rw [runEvents_cons, acc2]
    rfl
  have hclaim : (claimedPerPathRun []
      [⟨false, "patterns.md", WDir.knowledge, 10⟩,
       ⟨false, "failures.md", WDir.knowledge, 21/2⟩]).2 = [true, true] := by
    decide
  rw [hcode, hclaim]
  simp

theorem c9_witness :
    (runEvents ⟨0, 0, 0⟩
        [⟨false, "patterns.md", WDir.knowledge, 10⟩,
         ⟨false, "patterns.md", WDir.knowledge, 10 + 1/2⟩]).2 = [true, false]
    ∧ (runEvents ⟨0, 0, 0⟩
        [⟨false, "patterns.md", WDir.knowledge, 10⟩,
         ⟨false, "patterns.md", WDir.knowledge, 10 + 3⟩]).2 = [true, true] :=
  c9_category_debounce.2 "patterns.md" 10 (by decide)
    (by norm_num [debounceSeconds])
